import Mathlib

/-!
Shallow embedding of the board-game rule engine in `backend.py`
(`Board`, `GameBase`, `GomokuGame`, `GoGame`, `OthelloGame`).

Conventions of the embedding:
* A grid is a list of rows of `Int` cells (Python `list[list[int]]`);
  `0` = empty, `1` = player A (black), `2` = player B (white).
* Coordinates are `Int` (Python ints).  Every raw grid access in the
  source is guarded by `Board.is_valid`, so `cellAt`, which clamps with
  `Int.toNat` and defaults to `0`, agrees with Python indexing at every
  use site.
* The history stack is stored most-recent snapshot FIRST (Python appends
  to and pops from the end of the list; cons/head/tail model the same
  stack discipline).
* A method that mutates `self` and may raise becomes a function
  `GameState → StepResult`, where `StepResult` carries the error (if the
  Python call raised) together with the state of the object after the
  call returns or the exception propagates.
* Python `while` loops and the DFS of `GoGame._get_group` take explicit
  fuel; the fuel chosen (`size` for straight-line scans, `size*size + 1`
  for the DFS) dominates the number of iterations the Python loop can
  perform, so the embedded function computes the same result.
-/

namespace Chess

abbrev Grid := List (List Int)

/-- Python `grid[x][y]` (all uses in the source are guarded by `is_valid`). -/
def cellAt (g : Grid) (x y : Int) : Int :=
  (g.getD x.toNat []).getD y.toNat 0

/-- Python `grid[x][y] = v`. -/
def setCell (g : Grid) (x y : Int) (v : Int) : Grid :=
  g.set x.toNat ((g.getD x.toNat []).set y.toNat v)

/-- `Board.is_valid`: `0 <= x < size and 0 <= y < size`. -/
def is_valid (size : Nat) (x y : Int) : Bool :=
  0 ≤ x && x < (size : Int) && 0 ≤ y && y < (size : Int)

/-- `Board.count_stones`: `(sum of row.count(1), sum of row.count(2))`. -/
def count_stones (g : Grid) : Nat × Nat :=
  (g.foldl (fun n row => n + row.count 1) 0,
   g.foldl (fun n row => n + row.count 2) 0)

/-- Errors raised by the engine (`InvalidMoveError`, `GameStateError`,
and Python's `AttributeError` for a method a variant does not have). -/
inductive GameError
  | invalidMove
  | gameStateError
  | attributeError
deriving DecidableEq, Repr

/-- The mutable state of a `GameBase` instance: board size, grid,
`current_player`, and the snapshot history (most recent first). -/
structure GameState where
  size : Nat
  grid : Grid
  current_player : Int
  history : List Grid
deriving DecidableEq, Repr

/-- Result of calling a mutating method: the raised error (or `none`)
and the state of the object when the call finishes. -/
structure StepResult where
  error : Option GameError
  state : GameState
deriving DecidableEq, Repr

/-- `Board.__init__`: an all-zero `size × size` grid. -/
def empty_grid (size : Nat) : Grid :=
  List.replicate size (List.replicate size 0)

/-- `GameBase.__init__` (the 8–19 size guard is a hypothesis of the
theorems that need it): empty grid, player 1 to move, empty history. -/
def game_init (size : Nat) : GameState :=
  ⟨size, empty_grid size, 1, []⟩

/-- Row-major list of all coordinates, as Python's
`for r in range(size): for c in range(size)`. -/
def cellsList (size : Nat) : List (Int × Int) :=
  (List.range size).flatMap (fun r =>
    (List.range size).map (fun c => (Int.ofNat r, Int.ofNat c)))

/-- `GameBase.undo`: raise `GameStateError` on empty history, else pop
the last snapshot into the grid and toggle the player. -/
def undo (s : GameState) : StepResult :=
  match s.history with
  | [] => ⟨some GameError.gameStateError, s⟩
  | g :: rest =>
    ⟨none, { s with grid := g, history := rest, current_player := 3 - s.current_player }⟩

/-- `GameBase.make_move`, generic over the variant's `check_rules`
(which either raises — `some e` — or returns normally — `none`). -/
def base_make_move (checkRules : GameState → Int → Int → Int → Option GameError)
    (s : GameState) (x y : Int) : StepResult :=
  if ¬ is_valid s.size x y then ⟨some GameError.invalidMove, s⟩
  else if cellAt s.grid x y ≠ 0 then ⟨some GameError.invalidMove, s⟩
  else
    match checkRules s x y s.current_player with
    | some e => ⟨some e, s⟩
    | none =>
      ⟨none, { s with
          history := s.grid :: s.history,
          grid := setCell s.grid x y s.current_player,
          current_player := 3 - s.current_player }⟩

/-- `GameBase.get_valid_moves`, generic over `check_rules`: every empty
cell that `check_rules` accepts, in row-major order. -/
def base_get_valid_moves (checkRules : GameState → Int → Int → Int → Option GameError)
    (s : GameState) : List (Int × Int) :=
  (cellsList s.size).filter (fun rc =>
    cellAt s.grid rc.1 rc.2 == 0 && (checkRules s rc.1 rc.2 s.current_player).isNone)

/-! ## GomokuGame -/

/-- `GomokuGame.check_rules`: `pass` — never raises. -/
def gomoku_check_rules (_s : GameState) (_x _y _p : Int) : Option GameError := none

def gomoku_make_move (s : GameState) (x y : Int) : StepResult :=
  base_make_move gomoku_check_rules s x y

def gomoku_get_valid_moves (s : GameState) : List (Int × Int) :=
  base_get_valid_moves gomoku_check_rules s

/-- The `while` loop inside `GomokuGame.check_winner`: number of further
consecutive in-bounds cells of color `p` starting at `(tr, tc)` and
stepping by `(dr, dc)`.  Fuel `size` dominates the loop (the moving
coordinate takes distinct values in `[0, size)`). -/
def chainLen (g : Grid) (size : Nat) (p : Int) (dr dc : Int) : Int → Int → Nat → Nat
  | _, _, 0 => 0
  | tr, tc, n+1 =>
    if is_valid size tr tc && cellAt g tr tc == p then
      1 + chainLen g size p dr dc (tr + dr) (tc + dc) n
    else 0

def gomoku_dirs : List (Int × Int) := [(0, 1), (1, 0), (1, 1), (1, -1)]

/-- The body of the cell scan in `GomokuGame.check_winner`: `some p` when
the occupied cell `(r, c)` of color `p` starts a run of ≥ 5 in one of
the four directions (`count = 1 + ` the while loop's additions). -/
def cellWin (g : Grid) (size : Nat) (r c : Int) : Option Int :=
  let p := cellAt g r c
  if p = 0 then none
  else if gomoku_dirs.any (fun d =>
      5 ≤ 1 + chainLen g size p d.1 d.2 (r + d.1) (c + d.2) size) then
    some p
  else none

/-- `GomokuGame.check_winner`: first winning cell in row-major order
wins; else `0` if some cell is empty, else `3` (draw). -/
def gomoku_check_winner (s : GameState) : Int :=
  match (cellsList s.size).findSome? (fun rc => cellWin s.grid s.size rc.1 rc.2) with
  | some p => p
  | none => if s.grid.any (fun row => row.any (fun v => v == 0)) then 0 else 3

/-! ## GoGame -/

def go_dirs : List (Int × Int) := [(-1, 0), (1, 0), (0, -1), (0, 1)]

/-- One iteration body of the DFS in `GoGame._get_group`: push every
valid, unvisited, same-color neighbor of `(r, c)` onto the stack and
mark it visited (`sv = (stack, visited)`). -/
def pushNeighbors (g : Grid) (size : Nat) (color : Int) (r c : Int)
    (sv : List (Int × Int) × List (Int × Int)) :
    List (Int × Int) × List (Int × Int) :=
  go_dirs.foldl (fun sv d =>
    let nr := r + d.1
    let nc := c + d.2
    if is_valid size nr nc ∧ (nr, nc) ∉ sv.2 ∧ cellAt g nr nc = color then
      ((nr, nc) :: sv.1, (nr, nc) :: sv.2)
    else sv) sv

/-- The `while stack` loop of `GoGame._get_group`.  Each cell enters the
visited set at most once, so at most `size * size` stack pushes happen:
fuel `size * size + 1` dominates the loop. -/
def groupLoop (g : Grid) (size : Nat) (color : Int) :
    Nat → List (Int × Int) → List (Int × Int) → List (Int × Int) → List (Int × Int)
  | 0, _, acc, _ => acc.reverse
  | _+1, [], acc, _ => acc.reverse
  | n+1, (r, c) :: stack, acc, visited =>
    let sv := pushNeighbors g size color r c (stack, visited)
    groupLoop g size color n sv.1 ((r, c) :: acc) sv.2

/-- `GoGame._get_group`: all coordinates 4-connected to `(r, c)` through
cells of the same color. -/
def get_group (g : Grid) (size : Nat) (r c : Int) : List (Int × Int) :=
  groupLoop g size (cellAt g r c) (size * size + 1) [(r, c)] [] [(r, c)]

/-- `GoGame._has_liberty`: some member of the group has an empty valid
neighbor. -/
def has_liberty (g : Grid) (size : Nat) (r c : Int) : Bool :=
  (get_group g size r c).any (fun rc =>
    go_dirs.any (fun d =>
      is_valid size (rc.1 + d.1) (rc.2 + d.2) &&
      cellAt g (rc.1 + d.1) (rc.2 + d.2) == 0))

/-- `GoGame._capture_group`: set every cell of the group to `0`. -/
def capture_group (g : Grid) (size : Nat) (r c : Int) : Grid :=
  (get_group g size r c).foldl (fun g rc => setCell g rc.1 rc.2 0) g

/-- Step 3 of `GoGame.make_move`: for each of the four neighbors of the
placement holding the opponent's color (checked on the current,
possibly already mutated, grid), capture its group if it has no
liberty.  Returns the resulting grid and the `captured_any` flag. -/
def go_cap_step (size : Nat) (x y opponent : Int) (gb : Grid × Bool)
    (d : Int × Int) : Grid × Bool :=
  let nr := x + d.1
  let nc := y + d.2
  if is_valid size nr nc ∧ cellAt gb.1 nr nc = opponent then
    if has_liberty gb.1 size nr nc then gb
    else (capture_group gb.1 size nr nc, true)
  else gb

def go_captures (size : Nat) (g : Grid) (x y opponent : Int) : Grid × Bool :=
  go_dirs.foldl (go_cap_step size x y opponent) (g, false)

/-- The trial position of `GoGame.make_move`: stone placed, dead
opponent groups removed; paired with the `captured_any` flag. -/
def go_trial (s : GameState) (x y : Int) : Grid × Bool :=
  go_captures s.size (setCell s.grid x y s.current_player) x y (3 - s.current_player)

/-- `GoGame.make_move`.  Mirrors the source: push a snapshot, place the
stone, run captures; on suicide restore `grid := history.pop()` and
raise; otherwise toggle the player.  There is no ko check in the
source (the comment at step 5 says it is omitted). -/
def go_make_move (s : GameState) (x y : Int) : StepResult :=
  if ¬ is_valid s.size x y then ⟨some GameError.invalidMove, s⟩
  else if cellAt s.grid x y ≠ 0 then ⟨some GameError.invalidMove, s⟩
  else
    let hist1 := s.grid :: s.history
    let gb := go_trial s x y
    if ¬ gb.2 ∧ ¬ has_liberty gb.1 s.size x y then
      ⟨some GameError.invalidMove,
        { s with grid := hist1.headD s.grid, history := hist1.tail }⟩
    else
      ⟨none,
        { s with
            grid := gb.1
            current_player := 3 - s.current_player
            history := hist1 }⟩

/-- `GoGame.check_rules`: `pass` — never raises (legality is enforced
inside `make_move`). -/
def go_check_rules (_s : GameState) (_x _y _p : Int) : Option GameError := none

/-- `GameBase.get_valid_moves` as inherited by `GoGame`. -/
def go_get_valid_moves (s : GameState) : List (Int × Int) :=
  base_get_valid_moves go_check_rules s

/-- `GoGame.check_winner`: `1` if strictly more black stones, `2` if
strictly more white stones, else `0`. -/
def go_check_winner (s : GameState) : Int :=
  let bw := count_stones s.grid
  if bw.2 < bw.1 then 1 else if bw.1 < bw.2 then 2 else 0

/-- `GoGame.pass_turn`: snapshot the unchanged grid, toggle the player. -/
def go_pass (s : GameState) : StepResult :=
  ⟨none, { s with history := s.grid :: s.history, current_player := 3 - s.current_player }⟩

/-! ## OthelloGame -/

def oth_dirs : List (Int × Int) :=
  [(-1, -1), (-1, 0), (-1, 1), (0, -1), (0, 1), (1, -1), (1, 0), (1, 1)]

/-- `OthelloGame.__init__`: size-`size` board with the four center
stones placed (`mid = size // 2`). -/
def oth_init (size : Nat) : GameState :=
  let mid : Int := (size : Int) / 2
  let g0 := empty_grid size
  let g1 := setCell g0 (mid - 1) (mid - 1) 2
  let g2 := setCell g1 mid mid 2
  let g3 := setCell g2 (mid - 1) mid 1
  let g4 := setCell g3 mid (mid - 1) 1
  ⟨size, g4, 1, []⟩

/-- The per-direction `while` loop of `OthelloGame._get_flipped_stones`:
collect the consecutive opponent stones starting at `(r, c)` stepping by
`(dr, dc)`, and also return the coordinate at which the loop stopped.
Fuel `size` dominates the loop whenever the placement square is
in-bounds. -/
def oth_scan (g : Grid) (size : Nat) (opponent dr dc : Int) :
    Int → Int → Nat → List (Int × Int) × Int × Int
  | r, c, 0 => ([], r, c)
  | r, c, n+1 =>
    if is_valid size r c ∧ cellAt g r c = opponent then
      let rest := oth_scan g size opponent dr dc (r + dr) (c + dc) n
      ((r, c) :: rest.1, rest.2)
    else ([], r, c)

/-- `OthelloGame._get_flipped_stones`: for each of the 8 directions,
the collected opponent run counts iff the cell right after it is valid
and holds the player's own color. -/
def dir_flips (g : Grid) (size : Nat) (x y p : Int) (d : Int × Int) : List (Int × Int) :=
  let scan := oth_scan g size (3 - p) d.1 d.2 (x + d.1) (y + d.2) size
  if is_valid size scan.2.1 scan.2.2 ∧ cellAt g scan.2.1 scan.2.2 = p then scan.1
  else []

def get_flipped_stones (g : Grid) (size : Nat) (x y p : Int) : List (Int × Int) :=
  oth_dirs.foldl (fun acc d => acc ++ dir_flips g size x y p d) []

/-- `OthelloGame.make_move`: reject on invalid/occupied square or when
nothing would flip; otherwise snapshot, place, flip every collected
stone, toggle the player. -/
def oth_make_move (s : GameState) (x y : Int) : StepResult :=
  if ¬ is_valid s.size x y ∨ cellAt s.grid x y ≠ 0 then
    ⟨some GameError.invalidMove, s⟩
  else
    let flipped := get_flipped_stones s.grid s.size x y s.current_player
    if flipped = [] then ⟨some GameError.invalidMove, s⟩
    else
      let g1 := setCell s.grid x y s.current_player
      let g2 := flipped.foldl (fun g rc => setCell g rc.1 rc.2 s.current_player) g1
      ⟨none,
        { s with
            grid := g2
            current_player := 3 - s.current_player
            history := s.grid :: s.history }⟩

/-- `OthelloGame.check_rules`: raises iff nothing would flip. -/
def oth_check_rules (s : GameState) (x y p : Int) : Option GameError :=
  if get_flipped_stones s.grid s.size x y p = [] then some GameError.invalidMove
  else none

/-- `OthelloGame.get_valid_moves` (the override): every empty cell with
a nonempty flip list, in row-major order. -/
def oth_get_valid_moves (s : GameState) : List (Int × Int) :=
  (cellsList s.size).filter (fun rc =>
    cellAt s.grid rc.1 rc.2 == 0 &&
    !(get_flipped_stones s.grid s.size rc.1 rc.2 s.current_player).isEmpty)

/-- `OthelloGame.check_winner`: terminal iff neither side has a legal
move, then compare counts (`3` on a tie); otherwise `0`.  The Python
code probes the opponent by toggling `current_player` and toggling it
back; the embedding is the same pure computation. -/
def oth_check_winner (s : GameState) : Int :=
  let p1 := oth_get_valid_moves s
  let p2 := oth_get_valid_moves { s with current_player := 3 - s.current_player }
  let bw := count_stones s.grid
  if p1 = [] ∧ p2 = [] then
    if bw.2 < bw.1 then 1 else if bw.1 < bw.2 then 2 else 3
  else 0

/-- `OthelloGame.pass_turn`: snapshot the unchanged grid, toggle. -/
def oth_pass (s : GameState) : StepResult :=
  ⟨none, { s with history := s.grid :: s.history, current_player := 3 - s.current_player }⟩

/-! ## The three variants, traces and reachability -/

inductive Variant
  | gomoku
  | go
  | othello
deriving DecidableEq, Repr

/-- `make_move` dispatched on the variant. -/
def make_move : Variant → GameState → Int → Int → StepResult
  | .gomoku => gomoku_make_move
  | .go => go_make_move
  | .othello => oth_make_move

/-- `pass_turn` dispatched on the variant.  `GomokuGame` has no
`pass_turn` method: calling it raises `AttributeError` and changes
nothing. -/
def pass_turn : Variant → GameState → StepResult
  | .gomoku => fun s => ⟨some GameError.attributeError, s⟩
  | .go => go_pass
  | .othello => oth_pass

/-- `get_valid_moves` dispatched on the variant (`GomokuGame` and
`GoGame` inherit the `GameBase` implementation). -/
def get_valid_moves : Variant → GameState → List (Int × Int)
  | .gomoku => gomoku_get_valid_moves
  | .go => go_get_valid_moves
  | .othello => oth_get_valid_moves

/-- Freshly constructed game of each variant. -/
def init : Variant → Nat → GameState
  | .gomoku, n => game_init n
  | .go, n => game_init n
  | .othello, n => oth_init n

/-- One state-changing call on the engine. -/
inductive Act
  | move (x y : Int)
  | pass
  | undoAct
deriving DecidableEq, Repr

def step (v : Variant) (s : GameState) : Act → StepResult
  | .move x y => make_move v s x y
  | .pass => pass_turn v s
  | .undoAct => undo s

/-- Run a sequence of calls, keeping the state each call leaves behind
(whether or not it raised). -/
def run (v : Variant) : GameState → List Act → GameState
  | s, [] => s
  | s, a :: rest => run v (step v s a).state rest

/-- A state an engine of variant `v` can actually be in: obtained from a
freshly constructed game of a legal size by some sequence of calls. -/
def Reachable (v : Variant) (s : GameState) : Prop :=
  ∃ size acts, 8 ≤ size ∧ size ≤ 19 ∧ run v (init v size) acts = s

/-- Apply a list of moves, requiring every one of them to succeed. -/
def apply_moves (v : Variant) : GameState → List (Int × Int) → Option GameState
  | s, [] => some s
  | s, (x, y) :: ms =>
    let r := make_move v s x y
    match r.error with
    | some _ => none
    | none => apply_moves v r.state ms

/-- Call `undo` `n` times, requiring every call to succeed. -/
def undo_times : Nat → GameState → Option GameState
  | 0, s => some s
  | n+1, s =>
    let r := undo s
    match r.error with
    | some _ => none
    | none => undo_times n r.state

/-! ## Auxiliary definitions for the theorems: invariants, spec-side
predicates (for refinement claims) and concrete witness positions -/

/-- The state after one successful move on a fresh 8×8 five-in-a-row
game (used by the C5 witness). -/
def c5wState : GameState :=
  (apply_moves Variant.gomoku (game_init 8) [(0, 0)]).getD (game_init 8)

/-- A concrete 8×8 position with white stones on (0,1) and (1,0), black
to move: (0,0) is a suicide point (used by the C6 witness). -/
def c6State : GameState :=
  ⟨8, setCell (setCell (empty_grid 8) 0 1 2) 1 0 2, 1, []⟩

/-- The nine-move sequence that sets up a ko on an 8×8 board: black
builds the left wall, white the right wall plus the stone at (1,1);
black's ninth move at (1,2) captures the white stone at (1,1). -/
def koMoves : List (Int × Int) :=
  [(0, 1), (0, 2), (1, 0), (1, 3), (2, 1), (2, 2), (5, 5), (1, 1), (1, 2)]

/-- The reachable position right after black's ko capture. -/
def koState : GameState :=
  (apply_moves Variant.go (game_init 8) koMoves).getD (game_init 8)

/-- Four opening moves after which (0,0) is a suicide point for black:
black plays filler stones at (5,5) and (5,6) while white occupies (0,1)
and (1,0). -/
def c3Moves : List (Int × Int) := [(5, 5), (0, 1), (5, 6), (1, 0)]

/-- The reachable position after `c3Moves`, black to move. -/
def c3State : GameState :=
  (apply_moves Variant.go (game_init 8) c3Moves).getD (game_init 8)

/-- Count of successful state-changing calls in a trace: the first
component counts successful `make_move` and `pass_turn` calls, the
second successful `undo` calls (a call succeeds when it raises no
error). -/
def succCount (v : Variant) : GameState → List Act → Nat × Nat
  | _, [] => (0, 0)
  | s, a :: rest =>
    let r := step v s a
    let n := succCount v r.state rest
    if r.error.isSome then n
    else
      match a with
      | Act.undoAct => (n.1, n.2 + 1)
      | _ => (n.1 + 1, n.2)

/-- Every cell of the grid is empty (0), player A (1) or player B (2). -/
def cellsOK (g : Grid) : Prop :=
  ∀ row ∈ g, ∀ a ∈ row, a = 0 ∨ a = 1 ∨ a = 2

/-- Full structural invariant: the grid, the player and every history
snapshot are well formed. -/
instance (g : Grid) : Decidable (cellsOK g) := by
  unfold cellsOK
  infer_instance

def stateOK (s : GameState) : Prop :=
  cellsOK s.grid ∧ (s.current_player = 1 ∨ s.current_player = 2) ∧
    ∀ g ∈ s.history, cellsOK g

/-- Spec-side predicate for C7: some occupied cell of color `p` begins a
run of at least five consecutive same-color stones extending forward in
one of the four scan directions (the count is `1 +` the while loop's
additions, exactly as in the code). -/
def has_run (g : Grid) (size : Nat) (p : Int) : Bool :=
  (cellsList size).any (fun rc =>
    cellAt g rc.1 rc.2 == p &&
    gomoku_dirs.any (fun d =>
      5 ≤ 1 + chainLen g size p d.1 d.2 (rc.1 + d.1) (rc.2 + d.2) size))

/-- Ten five-in-a-row moves after which BOTH colors own a completed
horizontal run of five (the engine does not stop play at a win). -/
def c7Moves : List (Int × Int) :=
  [(0, 0), (1, 0), (0, 1), (1, 1), (0, 2), (1, 2), (0, 3), (1, 3), (0, 4), (1, 4)]

/-- The reachable double-run position. -/
def c7State : GameState :=
  (apply_moves Variant.gomoku (game_init 8) c7Moves).getD (game_init 8)

/-- Spec-side description of one bracketed run for C8, following the
spec's words: in direction `d` the `k ≥ 1` cells after `(x, y)` hold
opponent stones and the cell right after them holds the player's own
stone, all in bounds. -/
def run_spec (g : Grid) (size : Nat) (x y p : Int) (d : Int × Int) (k : Nat) : Prop :=
  1 ≤ k ∧
  (∀ j : Nat, 1 ≤ j → j ≤ k →
    is_valid size (x + (j : Int) * d.1) (y + (j : Int) * d.2) = true ∧
    cellAt g (x + (j : Int) * d.1) (y + (j : Int) * d.2) = 3 - p) ∧
  is_valid size (x + ((k + 1 : Nat) : Int) * d.1) (y + ((k + 1 : Nat) : Int) * d.2) = true ∧
  cellAt g (x + ((k + 1 : Nat) : Int) * d.1) (y + ((k + 1 : Nat) : Int) * d.2) = p

/-- Spec-side legality for C8: some direction brackets a nonempty
opponent run. -/
def bracket_spec (g : Grid) (size : Nat) (x y p : Int) : Prop :=
  ∃ d ∈ oth_dirs, ∃ k : Nat, run_spec g size x y p d k

/-- The grid is a `size × size` matrix (true of every state the engine
builds; taken as a hypothesis where a theorem needs cell updates to
land). -/
def dims_ok (size : Nat) (g : Grid) : Prop :=
  g.length = size ∧ ∀ row ∈ g, row.length = size

instance (size : Nat) (g : Grid) : Decidable (dims_ok size g) := by
  unfold dims_ok
  infer_instance

/-- Dimensional invariant: the grid and every history snapshot are
`size × size` matrices. -/
def gridOK (s : GameState) : Prop :=
  dims_ok s.size s.grid ∧ ∀ g ∈ s.history, dims_ok s.size g

/-! ## Shared lemmas about the three `make_move` implementations -/

theorem base_mm_fail (cr : GameState → Int → Int → Int → Option GameError)
    (s : GameState) (x y : Int)
    (h : (base_make_move cr s x y).error.isSome = true) :
    (base_make_move cr s x y).state = s := by
  obtain ⟨sz, g, p, hist⟩ := s
  by_cases h1 : is_valid sz x y
  · by_cases h2 : cellAt g x y = 0
    · cases h3 : cr ⟨sz, g, p, hist⟩ x y p with
      | some e => simp [base_make_move, h1, h2, h3]
      | none => simp [base_make_move, h1, h2, h3] at h
    · simp [base_make_move, h1, h2]
  · simp [base_make_move, h1]

theorem go_mm_fail (s : GameState) (x y : Int)
    (h : (go_make_move s x y).error.isSome = true) :
    (go_make_move s x y).state = s := by
  obtain ⟨sz, g, p, hist⟩ := s
  by_cases h1 : is_valid sz x y
  · by_cases h2 : cellAt g x y = 0
    · cases hc : (go_trial ⟨sz, g, p, hist⟩ x y).2 <;>
        cases hl : has_liberty (go_trial ⟨sz, g, p, hist⟩ x y).1 sz x y <;>
        simp [go_make_move, h1, h2, hc, hl] at h ⊢
    · simp [go_make_move, h1, h2]
  · simp [go_make_move, h1]

theorem oth_mm_fail (s : GameState) (x y : Int)
    (h : (oth_make_move s x y).error.isSome = true) :
    (oth_make_move s x y).state = s := by
  obtain ⟨sz, g, p, hist⟩ := s
  cases h1 : is_valid sz x y
  · simp [oth_make_move, h1]
  · by_cases h2 : cellAt g x y = 0
    · by_cases h3 : get_flipped_stones g sz x y p = []
      · simp [oth_make_move, h1, h2, h3]
      · simp [oth_make_move, h1, h2, h3] at h
    · simp [oth_make_move, h1, h2]

theorem mm_fail (v : Variant) (s : GameState) (x y : Int)
    (h : (make_move v s x y).error.isSome = true) :
    (make_move v s x y).state = s := by
  cases v with
  | gomoku => exact base_mm_fail gomoku_check_rules s x y h
  | go => exact go_mm_fail s x y h
  | othello => exact oth_mm_fail s x y h

/-- A successful `make_move` (any variant) pushes exactly the pre-move
grid onto the history and toggles the player. -/
theorem mm_succ_hist (v : Variant) (s : GameState) (x y : Int)
    (h : (make_move v s x y).error = none) :
    (make_move v s x y).state.size = s.size ∧
    (make_move v s x y).state.history = s.grid :: s.history ∧
    (make_move v s x y).state.current_player = 3 - s.current_player := by
  obtain ⟨sz, g, p, hist⟩ := s
  cases v with
  | gomoku =>
    by_cases h1 : is_valid sz x y
    · by_cases h2 : cellAt g x y = 0
      · simp [make_move, gomoku_make_move, base_make_move, gomoku_check_rules, h1, h2]
      · simp [make_move, gomoku_make_move, base_make_move, h1, h2] at h
    · simp [make_move, gomoku_make_move, base_make_move, h1] at h
  | go =>
    by_cases h1 : is_valid sz x y
    · by_cases h2 : cellAt g x y = 0
      · cases hc : (go_trial ⟨sz, g, p, hist⟩ x y).2 <;>
          cases hl : has_liberty (go_trial ⟨sz, g, p, hist⟩ x y).1 sz x y <;>
          simp [make_move, go_make_move, h1, h2, hc, hl] at h ⊢
      · simp [make_move, go_make_move, h1, h2] at h
    · simp [make_move, go_make_move, h1] at h
  | othello =>
    cases h1 : is_valid sz x y
    · simp [make_move, oth_make_move, h1] at h
    · by_cases h2 : cellAt g x y = 0
      · by_cases h3 : get_flipped_stones g sz x y p = []
        · simp [make_move, oth_make_move, h1, h2, h3] at h
        · simp [make_move, oth_make_move, h1, h2, h3]
      · simp [make_move, oth_make_move, h1, h2] at h

/-- `undo` is a left inverse of every successful `make_move`. -/
theorem mm_undo (v : Variant) (s : GameState) (x y : Int)
    (h : (make_move v s x y).error = none) :
    undo (make_move v s x y).state = ⟨none, s⟩ := by
  obtain ⟨sz, g, p, hist⟩ := s
  cases v with
  | gomoku =>
    by_cases h1 : is_valid sz x y
    · by_cases h2 : cellAt g x y = 0
      · simp [make_move, gomoku_make_move, base_make_move, gomoku_check_rules,
          h1, h2, undo]
      · simp [make_move, gomoku_make_move, base_make_move, h1, h2] at h
    · simp [make_move, gomoku_make_move, base_make_move, h1] at h
  | go =>
    by_cases h1 : is_valid sz x y
    · by_cases h2 : cellAt g x y = 0
      · cases hc : (go_trial ⟨sz, g, p, hist⟩ x y).2 <;>
          cases hl : has_liberty (go_trial ⟨sz, g, p, hist⟩ x y).1 sz x y <;>
          simp [make_move, go_make_move, h1, h2, hc, hl, undo] at h ⊢
      · simp [make_move, go_make_move, h1, h2] at h
    · simp [make_move, go_make_move, h1] at h
  | othello =>
    cases h1 : is_valid sz x y
    · simp [make_move, oth_make_move, h1] at h
    · by_cases h2 : cellAt g x y = 0
      · by_cases h3 : get_flipped_stones g sz x y p = []
        · simp [make_move, oth_make_move, h1, h2, h3] at h
        · simp [make_move, oth_make_move, h1, h2, h3, undo]
      · simp [make_move, oth_make_move, h1, h2] at h

/-- Unfolding `undo_times` from the far end: `n+1` undos are `n` undos
followed by one more. -/
theorem undo_times_snoc (n : Nat) (s : GameState) :
    undo_times (n + 1) s =
      (undo_times n s).bind (fun t =>
        match (undo t).error with
        | some _ => none
        | none => some (undo t).state) := by
  induction n generalizing s with
  | zero =>
    simp only [undo_times, Option.some_bind]
  | succ n ih =>
    cases he : (undo s).error with
    | some e =>
      have l1 : undo_times (n + 1 + 1) s = none := by
        show (match (undo s).error with
              | some _ => none
              | none => undo_times (n + 1) (undo s).state) = none
        rw [he]
      have l2 : undo_times (n + 1) s = none := by
        show (match (undo s).error with
              | some _ => none
              | none => undo_times n (undo s).state) = none
        rw [he]
      rw [l1, l2]
      rfl
    | none =>
      have l1 : undo_times (n + 1 + 1) s = undo_times (n + 1) (undo s).state := by
        show (match (undo s).error with
              | some _ => none
              | none => undo_times (n + 1) (undo s).state) =
            undo_times (n + 1) (undo s).state
        rw [he]
      have l2 : undo_times (n + 1) s = undo_times n (undo s).state := by
        show (match (undo s).error with
              | some _ => none
              | none => undo_times n (undo s).state) =
            undo_times n (undo s).state
        rw [he]
      rw [l1, l2, ih]

/-- After a list of successful moves, that many undos lead back exactly
to the starting state. -/
theorem apply_moves_undo (v : Variant) (ms : List (Int × Int)) :
    ∀ s t : GameState, apply_moves v s ms = some t →
      undo_times ms.length t = some s := by
  induction ms with
  | nil =>
    intro s t h
    simp only [apply_moves, Option.some_inj] at h
    subst h
    rfl
  | cons m ms ih =>
    intro s t h
    obtain ⟨x, y⟩ := m
    simp only [apply_moves] at h
    cases he : (make_move v s x y).error with
    | some e => rw [he] at h; simp at h
    | none =>
      rw [he] at h
      simp only at h
      have h2 := ih _ _ h
      rw [List.length_cons, undo_times_snoc, h2, Option.some_bind, mm_undo v s x y he]

/-- C2: for every variant, every state and every coordinate, a failing
`make_move` leaves the whole state — grid, `current_player`, history —
exactly as it was.  (Proved for all states, which subsumes the
reachable ones.) -/
theorem C2_make_move_atomic (v : Variant) (s : GameState) (x y : Int)
    (h : (make_move v s x y).error.isSome = true) :
    (make_move v s x y).state = s :=
  mm_fail v s x y h

/-- Witness for C2: on a fresh 8×8 five-in-a-row game the out-of-bounds
move (8,0) fails and the state is untouched. -/
theorem C2_witness :
    ((make_move Variant.gomoku (game_init 8) 8 0).error.isSome = true) ∧
    (make_move Variant.gomoku (game_init 8) 8 0).state = game_init 8 :=
  ⟨by decide, C2_make_move_atomic Variant.gomoku (game_init 8) 8 0 (by decide)⟩

/-- C5: for every variant, after any sequence of `N` successful
`make_move` calls starting from a freshly constructed game, `undo`
succeeds `N` times and reproduces the initial grid and the initial
`current_player` (in fact the whole initial state). -/
theorem C5_undo_roundtrip (v : Variant) (size : Nat) (ms : List (Int × Int))
    (t : GameState) (h : apply_moves v (init v size) ms = some t) :
    ∃ u, undo_times ms.length t = some u ∧
      u.grid = (init v size).grid ∧
      u.current_player = (init v size).current_player :=
  ⟨init v size, apply_moves_undo v ms (init v size) t h, rfl, rfl⟩

/-- Witness for C5 at a concrete one-move game. -/
theorem C5_witness :
    ∃ u, undo_times 1 c5wState = some u ∧
      u.grid = (init Variant.gomoku 8).grid ∧
      u.current_player = (init Variant.gomoku 8).current_player :=
  C5_undo_roundtrip Variant.gomoku 8 [(0, 0)] c5wState (by decide)

/-- C6: in the capture-liberty variant, a move onto an in-bounds empty
cell that captures nothing (`captured_any` stays false) and leaves the
placed stone's own group with no liberty on the post-capture trial grid
is rejected as `InvalidMove`, and the returned state is exactly the
original one (grid, `current_player` and history untouched). -/
theorem C6_suicide_rejected (s : GameState) (x y : Int)
    (hv : is_valid s.size x y = true)
    (he : cellAt s.grid x y = 0)
    (hcap : (go_trial s x y).2 = false)
    (hlib : has_liberty (go_trial s x y).1 s.size x y = false) :
    go_make_move s x y = ⟨some GameError.invalidMove, s⟩ := by
  obtain ⟨sz, g, p, hist⟩ := s
  simp [go_make_move, hv, he, hcap, hlib]

/-- Witness for C6 at the concrete suicide position. -/
theorem C6_witness :
    go_make_move c6State 0 0 = ⟨some GameError.invalidMove, c6State⟩ :=
  C6_suicide_rejected c6State 0 0 (by decide) (by decide) (by decide) (by decide)

/-- Membership in the row-major cell list gives the bounds check. -/
theorem mem_cellsList (size : Nat) (x y : Int) (h : (x, y) ∈ cellsList size) :
    0 ≤ x ∧ x < (size : Int) ∧ 0 ≤ y ∧ y < (size : Int) := by
  unfold cellsList at h
  obtain ⟨r, hr, hmem⟩ := List.mem_flatMap.1 h
  obtain ⟨c, hc, heq⟩ := List.mem_map.1 hmem
  rw [List.mem_range] at hr hc
  cases heq
  simp only [Int.ofNat_eq_coe]
  refine ⟨by omega, by omega, by omega, by omega⟩

/-- C1 (amended): `GoGame.make_move` performs no ko check at all — its
accept/reject outcome is the same for any two history stacks, so it can
never reject a move because the resulting grid repeats the position one
snapshot back.  (The source comments the ko check out at step 5.) -/
theorem C1_no_ko_check (s : GameState) (h : List Grid) (x y : Int) :
    (go_make_move { s with history := h } x y).error = (go_make_move s x y).error := by
  obtain ⟨sz, g, p, hist⟩ := s
  have htr : go_trial ⟨sz, g, p, h⟩ x y = go_trial ⟨sz, g, p, hist⟩ x y := rfl
  by_cases h1 : is_valid sz x y
  · by_cases h2 : cellAt g x y = 0
    · cases hc : (go_trial ⟨sz, g, p, hist⟩ x y).2 <;>
        cases hl : has_liberty (go_trial ⟨sz, g, p, hist⟩ x y).1 sz x y <;>
        simp [go_make_move, htr, h1, h2, hc, hl]
    · simp [go_make_move, h1, h2]
  · simp [go_make_move, h1]

/-- Counterexample to C1 as stated: `koState` is reachable (all nine
moves succeed), its history is non-empty, white's recapture at (1,1)
produces a trial grid identical, cell for cell, to the grid exactly one
snapshot back in history — and yet `make_move` accepts the move instead
of failing with `InvalidMove`. -/
theorem C1_counterexample :
    (apply_moves Variant.go (game_init 8) koMoves).isSome = true ∧
    koState.history ≠ [] ∧
    koState.history.headD [] = (go_trial koState 1 1).1 ∧
    (go_make_move koState 1 1).error = none := by decide

/-- C3 (amended): for the five-in-a-row and line-flip variants, every
coordinate returned by `get_valid_moves` is accepted by `make_move`.
(For the capture-liberty variant this fails: see the counterexample.) -/
theorem C3_valid_moves_legal :
    (∀ s : GameState, ∀ x y : Int, (x, y) ∈ gomoku_get_valid_moves s →
        (gomoku_make_move s x y).error = none) ∧
    (∀ s : GameState, ∀ x y : Int, (x, y) ∈ oth_get_valid_moves s →
        (oth_make_move s x y).error = none) := by
  constructor
  · intro s x y h
    simp only [gomoku_get_valid_moves, base_get_valid_moves, List.mem_filter] at h
    obtain ⟨hmem, hcond⟩ := h
    have hb := mem_cellsList s.size x y hmem
    have hv : is_valid s.size x y = true := by
      simp only [is_valid, Bool.and_eq_true, decide_eq_true_eq]
      omega
    simp only [Bool.and_eq_true, beq_iff_eq] at hcond
    simp [gomoku_make_move, base_make_move, gomoku_check_rules, hv, hcond.1]
  · intro s x y h
    simp only [oth_get_valid_moves, List.mem_filter] at h
    obtain ⟨hmem, hcond⟩ := h
    have hb := mem_cellsList s.size x y hmem
    have hv : is_valid s.size x y = true := by
      simp only [is_valid, Bool.and_eq_true, decide_eq_true_eq]
      omega
    simp only [Bool.and_eq_true, beq_iff_eq, Bool.not_eq_true',
      List.isEmpty_eq_false] at hcond
    simp [oth_make_move, hv, hcond.1, hcond.2]

/-- Witness for the amended C3: on fresh 8×8 boards, (0,0) is listed for
five-in-a-row and (2,3) for line-flip, and both moves succeed. -/
theorem C3_witness :
    (gomoku_make_move (game_init 8) 0 0).error = none ∧
    (oth_make_move (oth_init 8) 2 3).error = none :=
  ⟨C3_valid_moves_legal.1 (game_init 8) 0 0 (by decide),
   C3_valid_moves_legal.2 (oth_init 8) 2 3 (by decide)⟩

/-- Counterexample to C3 as stated: in the capture-liberty variant,
`get_valid_moves` (the inherited scan over `check_rules`, which is a
no-op for this variant) lists the suicide point (0,0) of the reachable
position `c3State`, yet `make_move` rejects it with `InvalidMove`. -/
theorem C3_counterexample :
    (apply_moves Variant.go (game_init 8) c3Moves).isSome = true ∧
    (0, 0) ∈ go_get_valid_moves c3State ∧
    (go_make_move c3State 0 0).error = some GameError.invalidMove := by decide

/-- C4 (amended): `GoGame.check_winner` returns `1` iff black has
strictly more stones and `2` iff white has strictly more stones; on
equal counts it returns `0` — the same value that encodes `InProgress`
throughout the code base — rather than a distinct Draw result. -/
theorem C4_count_winner (s : GameState) :
    (go_check_winner s = 1 ↔ (count_stones s.grid).2 < (count_stones s.grid).1) ∧
    (go_check_winner s = 2 ↔ (count_stones s.grid).1 < (count_stones s.grid).2) ∧
    ((count_stones s.grid).1 = (count_stones s.grid).2 → go_check_winner s = 0) := by
  simp only [go_check_winner]
  split_ifs with h1 h2 <;> refine ⟨?_, ?_, ?_⟩ <;> omega

/-- Witness for the amended C4, at a fresh game of the default Go board
size 19 (both counts zero). -/
theorem C4_witness : go_check_winner (game_init 19) = 0 :=
  (C4_count_winner (game_init 19)).2.2 (by decide)

/-- Counterexample to C4 as stated: on the fresh (reachable) 19×19
position the two stone counts are equal, and `check_winner` returns
`0` — the `InProgress` encoding used by every variant of this code base
(and the value the client treats as "keep playing") — not a Draw result
distinct from `InProgress`. -/
theorem C4_counterexample :
    (count_stones (game_init 19).grid).1 = (count_stones (game_init 19).grid).2 ∧
    go_check_winner (game_init 19) = 0 ∧
    gomoku_check_winner (game_init 19) = 0 := by decide

/-- Every failing call (any variant, any action) leaves the state — in
particular the history — unchanged. -/
theorem step_fail (v : Variant) (s : GameState) (a : Act)
    (h : (step v s a).error.isSome = true) : (step v s a).state = s := by
  cases a with
  | move x y => exact mm_fail v s x y h
  | pass => cases v <;> simp [step, pass_turn, go_pass, oth_pass] at h ⊢
  | undoAct => cases hh : s.history <;> simp [step, undo, hh] at h ⊢

/-- A successful `pass_turn` pushes exactly the current grid. -/
theorem pass_succ_hist (v : Variant) (s : GameState)
    (h : (pass_turn v s).error = none) :
    (pass_turn v s).state.history = s.grid :: s.history := by
  cases v <;> simp [pass_turn, go_pass, oth_pass] at h ⊢

/-- Trace invariant behind C9: along any call sequence the history
length changes by the number of successful moves/passes minus the
number of successful undos. -/
theorem run_hist_len (v : Variant) (acts : List Act) :
    ∀ s : GameState,
      (run v s acts).history.length + (succCount v s acts).2
        = s.history.length + (succCount v s acts).1 := by
  induction acts with
  | nil => intro s; simp [run, succCount]
  | cons a rest ih =>
    intro s
    cases he : (step v s a).error with
    | some e =>
      have hst : (step v s a).state = s := step_fail v s a (by simp [he])
      have ih2 := ih (step v s a).state
      rw [hst] at ih2
      simpa [run, succCount, he, hst] using ih2
    | none =>
      have ih2 := ih (step v s a).state
      cases a with
      | move x y =>
        have hh := (mm_succ_hist v s x y he).2.1
        have hh2 : (step v s (Act.move x y)).state.history = s.grid :: s.history := hh
        rw [hh2, List.length_cons] at ih2
        simp only [run, succCount, he, Option.isSome_none, Bool.false_eq_true, if_false]
        omega
      | pass =>
        have hh : (step v s Act.pass).state.history = s.grid :: s.history :=
          pass_succ_hist v s he
        rw [hh, List.length_cons] at ih2
        simp only [run, succCount, he, Option.isSome_none, Bool.false_eq_true, if_false]
        omega
      | undoAct =>
        cases hh : s.history with
        | nil => simp [step, undo, hh] at he
        | cons g rest2 =>
          have hh2 : (step v s Act.undoAct).state.history = rest2 := by
            simp [step, undo, hh]
          rw [hh2] at ih2
          simp only [run, succCount, he, Option.isSome_none, Bool.false_eq_true,
            if_false, hh, List.length_cons]
          omega

/-- C9: starting from a freshly constructed game of any variant, after
any sequence of calls the history length equals the number of
successful `make_move`/`pass_turn` calls minus the number of successful
`undo` calls; and every failing call leaves the history unchanged. -/
theorem C9_history_length (v : Variant) (size : Nat) (acts : List Act) :
    (run v (init v size) acts).history.length + (succCount v (init v size) acts).2
      = (succCount v (init v size) acts).1 ∧
    ∀ (s : GameState) (a : Act), (step v s a).error.isSome = true →
      (step v s a).state.history = s.history := by
  constructor
  · have h := run_hist_len v acts (init v size)
    have h0 : (init v size).history.length = 0 := by cases v <;> rfl
    omega
  · intro s a h
    rw [step_fail v s a h]

/-- Witness for C9 on a concrete three-call trace (a successful move, a
successful undo, a failing move) and a concrete failing undo. -/
theorem C9_witness :
    (run Variant.gomoku (init Variant.gomoku 8)
        [Act.move 0 0, Act.undoAct, Act.move 99 99]).history.length +
      (succCount Variant.gomoku (init Variant.gomoku 8)
        [Act.move 0 0, Act.undoAct, Act.move 99 99]).2
      = (succCount Variant.gomoku (init Variant.gomoku 8)
          [Act.move 0 0, Act.undoAct, Act.move 99 99]).1 ∧
    (step Variant.gomoku (game_init 8) Act.undoAct).state.history =
      (game_init 8).history :=
  ⟨(C9_history_length Variant.gomoku 8 [Act.move 0 0, Act.undoAct, Act.move 99 99]).1,
   (C9_history_length Variant.gomoku 8 []).2 (game_init 8) Act.undoAct (by decide)⟩

theorem cellsOK_empty (n : Nat) : cellsOK (empty_grid n) := by
  intro row hrow a ha
  rw [List.eq_of_mem_replicate hrow] at ha
  rw [List.eq_of_mem_replicate ha]
  left
  rfl

theorem cellsOK_set (g : Grid) (x y val : Int)
    (hg : cellsOK g) (hv : val = 0 ∨ val = 1 ∨ val = 2) :
    cellsOK (setCell g x y val) := by
  intro row hrow a ha
  rcases List.mem_or_eq_of_mem_set hrow with hrow2 | rfl
  · exact hg row hrow2 a ha
  · rcases List.mem_or_eq_of_mem_set ha with ha2 | rfl
    · by_cases hx : x.toNat < g.length
      · have hd : g.getD x.toNat [] = g[x.toNat] := by
          simp [List.getD, List.getElem?_eq_getElem hx]
        rw [hd] at ha2
        exact hg _ (List.getElem_mem hx) a ha2
      · have hd : g.getD x.toNat [] = [] := by
          simp [List.getD, List.getElem?_eq_none (Nat.le_of_not_lt hx)]
        rw [hd] at ha2
        cases ha2
    · exact hv

theorem cellsOK_foldl_set (val : Int) (hv : val = 0 ∨ val = 1 ∨ val = 2)
    (l : List (Int × Int)) :
    ∀ g : Grid, cellsOK g →
      cellsOK (l.foldl (fun g rc => setCell g rc.1 rc.2 val) g) := by
  induction l with
  | nil => intro g hg; exact hg
  | cons rc l ih => intro g hg; exact ih _ (cellsOK_set _ _ _ _ hg hv)

theorem cellsOK_capture_group (g : Grid) (size : Nat) (r c : Int)
    (hg : cellsOK g) : cellsOK (capture_group g size r c) :=
  cellsOK_foldl_set 0 (Or.inl rfl) (get_group g size r c) g hg

theorem cellsOK_cap_step (size : Nat) (x y opp : Int) (gb : Grid × Bool)
    (d : Int × Int) (hg : cellsOK gb.1) : cellsOK (go_cap_step size x y opp gb d).1 := by
  unfold go_cap_step
  by_cases h1 : is_valid size (x + d.1) (y + d.2) = true ∧ cellAt gb.1 (x + d.1) (y + d.2) = opp
  · by_cases h2 : has_liberty gb.1 size (x + d.1) (y + d.2) = true
    · simpa [h1, h2] using hg
    · simpa [h1, h2] using cellsOK_capture_group _ _ _ _ hg
  · simpa [h1] using hg

theorem cellsOK_captures_aux (size : Nat) (x y opp : Int)
    (ds : List (Int × Int)) :
    ∀ gb : Grid × Bool, cellsOK gb.1 →
      cellsOK ((ds.foldl (go_cap_step size x y opp) gb).1) := by
  induction ds with
  | nil => intro gb hg; exact hg
  | cons d ds ih => intro gb hg; exact ih _ (cellsOK_cap_step size x y opp gb d hg)

theorem cellsOK_go_captures (size : Nat) (g : Grid) (x y opp : Int)
    (hg : cellsOK g) : cellsOK (go_captures size g x y opp).1 :=
  cellsOK_captures_aux size x y opp go_dirs (g, false) hg

theorem toggle_ok {p : Int} (h : p = 1 ∨ p = 2) : 3 - p = 1 ∨ 3 - p = 2 := by
  omega

theorem val_ok {p : Int} (h : p = 1 ∨ p = 2) : p = 0 ∨ p = 1 ∨ p = 2 :=
  Or.inr h

/-- Shape of a successful `GomokuGame.make_move`. -/
theorem gomoku_mm_succ (s : GameState) (x y : Int)
    (h : (gomoku_make_move s x y).error = none) :
    (gomoku_make_move s x y).state =
      { s with grid := setCell s.grid x y s.current_player,
               current_player := 3 - s.current_player,
               history := s.grid :: s.history } := by
  obtain ⟨sz, g, p, hist⟩ := s
  by_cases h1 : is_valid sz x y
  · by_cases h2 : cellAt g x y = 0
    · simp [gomoku_make_move, base_make_move, gomoku_check_rules, h1, h2]
    · simp [gomoku_make_move, base_make_move, h1, h2] at h
  · simp [gomoku_make_move, base_make_move, h1] at h

/-- Shape of a successful `GoGame.make_move`. -/
theorem go_mm_succ (s : GameState) (x y : Int)
    (h : (go_make_move s x y).error = none) :
    (go_make_move s x y).state =
      { s with grid := (go_trial s x y).1,
               current_player := 3 - s.current_player,
               history := s.grid :: s.history } := by
  obtain ⟨sz, g, p, hist⟩ := s
  by_cases h1 : is_valid sz x y
  · by_cases h2 : cellAt g x y = 0
    · cases hc : (go_trial ⟨sz, g, p, hist⟩ x y).2 <;>
        cases hl : has_liberty (go_trial ⟨sz, g, p, hist⟩ x y).1 sz x y <;>
        simp [go_make_move, h1, h2, hc, hl] at h ⊢
    · simp [go_make_move, h1, h2] at h
  · simp [go_make_move, h1] at h

/-- Shape of a successful `OthelloGame.make_move`. -/
theorem oth_mm_succ (s : GameState) (x y : Int)
    (h : (oth_make_move s x y).error = none) :
    (oth_make_move s x y).state =
      { s with grid := (get_flipped_stones s.grid s.size x y s.current_player).foldl
                 (fun g rc => setCell g rc.1 rc.2 s.current_player)
                 (setCell s.grid x y s.current_player),
               current_player := 3 - s.current_player,
               history := s.grid :: s.history } := by
  obtain ⟨sz, g, p, hist⟩ := s
  cases h1 : is_valid sz x y
  · simp [oth_make_move, h1] at h
  · by_cases h2 : cellAt g x y = 0
    · by_cases h3 : get_flipped_stones g sz x y p = []
      · simp [oth_make_move, h1, h2, h3] at h
      · simp [oth_make_move, h1, h2, h3]
    · simp [oth_make_move, h1, h2] at h

theorem cellsOK_cons_hist {s : GameState} (hg : cellsOK s.grid)
    (hh : ∀ g ∈ s.history, cellsOK g) :
    ∀ g ∈ s.grid :: s.history, cellsOK g := by
  intro g2 hg2
  rcases List.mem_cons.1 hg2 with rfl | hg3
  · exact hg
  · exact hh g2 hg3

/-- Every engine call preserves the structural invariant. -/
theorem stateOK_step (v : Variant) (s : GameState) (a : Act)
    (h : stateOK s) : stateOK (step v s a).state := by
  obtain ⟨hg, hp, hh⟩ := h
  cases a with
  | move x y =>
    cases he : (step v s (Act.move x y)).error with
    | some e =>
      rw [step_fail v s (Act.move x y) (by simp [he])]
      exact ⟨hg, hp, hh⟩
    | none =>
      cases v with
      | gomoku =>
        have hs := gomoku_mm_succ s x y he
        show stateOK (gomoku_make_move s x y).state
        rw [hs]
        exact ⟨cellsOK_set _ _ _ _ hg (val_ok hp), toggle_ok hp, cellsOK_cons_hist hg hh⟩
      | go =>
        have hs := go_mm_succ s x y he
        show stateOK (go_make_move s x y).state
        rw [hs]
        exact ⟨cellsOK_go_captures _ _ _ _ _ (cellsOK_set _ _ _ _ hg (val_ok hp)),
          toggle_ok hp, cellsOK_cons_hist hg hh⟩
      | othello =>
        have hs := oth_mm_succ s x y he
        show stateOK (oth_make_move s x y).state
        rw [hs]
        exact ⟨cellsOK_foldl_set _ (val_ok hp) _ _ (cellsOK_set _ _ _ _ hg (val_ok hp)),
          toggle_ok hp, cellsOK_cons_hist hg hh⟩
  | pass =>
    cases v with
    | gomoku => exact ⟨hg, hp, hh⟩
    | go => exact ⟨hg, toggle_ok hp, cellsOK_cons_hist hg hh⟩
    | othello => exact ⟨hg, toggle_ok hp, cellsOK_cons_hist hg hh⟩
  | undoAct =>
    cases hhist : s.history with
    | nil =>
      have hs : (step v s Act.undoAct).state = s := by simp [step, undo, hhist]
      rw [hs]
      exact ⟨hg, hp, hh⟩
    | cons g2 rest =>
      have hs : (step v s Act.undoAct).state =
          { s with grid := g2, history := rest,
                   current_player := 3 - s.current_player } := by
        simp [step, undo, hhist]
      rw [hs]
      refine ⟨hh g2 (hhist ▸ List.mem_cons_self _ _), toggle_ok hp, ?_⟩
      intro g3 hg3
      exact hh g3 (hhist ▸ List.mem_cons_of_mem _ hg3)

theorem stateOK_run (v : Variant) (acts : List Act) :
    ∀ s : GameState, stateOK s → stateOK (run v s acts) := by
  induction acts with
  | nil => intro s h; exact h
  | cons a rest ih => intro s h; exact ih _ (stateOK_step v s a h)

theorem stateOK_init (v : Variant) (size : Nat) : stateOK (init v size) := by
  cases v with
  | gomoku => exact ⟨cellsOK_empty size, Or.inl rfl, by intro g hg; cases hg⟩
  | go => exact ⟨cellsOK_empty size, Or.inl rfl, by intro g hg; cases hg⟩
  | othello =>
    refine ⟨?_, Or.inl rfl, by intro g hg; cases hg⟩
    apply cellsOK_set
    apply cellsOK_set
    apply cellsOK_set
    apply cellsOK_set
    · exact cellsOK_empty size
    all_goals simp

/-- C10: in every reachable state of every variant, every grid cell is
0, 1 or 2 and the current player is 1 or 2 (the invariant is
established at construction and preserved by `make_move`, `pass_turn`
and `undo`; `get_valid_moves` and `check_winner` are pure and return no
state). -/
theorem C10_cells_player_invariant (v : Variant) (s : GameState)
    (h : Reachable v s) :
    cellsOK s.grid ∧ (s.current_player = 1 ∨ s.current_player = 2) := by
  obtain ⟨size, acts, -, -, rfl⟩ := h
  have hok := stateOK_run v acts (init v size) (stateOK_init v size)
  exact ⟨hok.1, hok.2.1⟩

/-- Witness for C10 at the freshly constructed 8×8 five-in-a-row game. -/
theorem C10_witness :
    cellsOK (game_init 8).grid ∧
    ((game_init 8).current_player = 1 ∨ (game_init 8).current_player = 2) :=
  C10_cells_player_invariant Variant.gomoku (game_init 8)
    ⟨8, [], by omega, by omega, rfl⟩

theorem cellsOK_cellAt (g : Grid) (h : cellsOK g) (x y : Int) :
    cellAt g x y = 0 ∨ cellAt g x y = 1 ∨ cellAt g x y = 2 := by
  unfold cellAt
  by_cases hx : x.toNat < g.length
  · have hrow : g.getD x.toNat [] = g[x.toNat] := by
      simp [List.getD, List.getElem?_eq_getElem hx]
    rw [hrow]
    by_cases hy : y.toNat < (g[x.toNat]).length
    · have hcell : (g[x.toNat]).getD y.toNat 0 = (g[x.toNat])[y.toNat] := by
        simp [List.getD, List.getElem?_eq_getElem hy]
      rw [hcell]
      exact h _ (List.getElem_mem hx) _ (List.getElem_mem hy)
    · have hcell : (g[x.toNat]).getD y.toNat 0 = 0 := by
        simp [List.getD, List.getElem?_eq_none (Nat.le_of_not_lt hy)]
      rw [hcell]
      left
      rfl
  · have hrow : g.getD x.toNat [] = [] := by
      simp [List.getD, List.getElem?_eq_none (Nat.le_of_not_lt hx)]
    rw [hrow]
    left
    rfl

theorem cellWin_eq_some {g : Grid} {size : Nat} {r c q : Int} :
    cellWin g size r c = some q ↔
      cellAt g r c = q ∧ q ≠ 0 ∧
      gomoku_dirs.any (fun d =>
        5 ≤ 1 + chainLen g size q d.1 d.2 (r + d.1) (c + d.2) size) = true := by
  unfold cellWin
  by_cases h0 : cellAt g r c = 0
  · simp only [h0, if_true, ite_true]
    constructor
    · intro h
      cases h
    · rintro ⟨rfl, hq, -⟩
      exact absurd rfl hq
  · simp only [h0, if_false, ite_false]
    by_cases hany : gomoku_dirs.any (fun d =>
        5 ≤ 1 + chainLen g size (cellAt g r c) d.1 d.2 (r + d.1) (c + d.2) size) = true
    · simp only [hany, if_true, ite_true, Option.some_inj]
      constructor
      · rintro rfl
        exact ⟨rfl, h0, hany⟩
      · rintro ⟨rfl, -, -⟩
        rfl
    · simp only [hany, if_false, ite_false]
      constructor
      · intro h
        cases h
      · rintro ⟨rfl, -, hq⟩
        exact absurd hq hany

theorem has_run_iff {g : Grid} {size : Nat} {p : Int} (hp : p ≠ 0) :
    has_run g size p = true ↔
      ∃ rc ∈ cellsList size, cellWin g size rc.1 rc.2 = some p := by
  unfold has_run
  rw [List.any_eq_true]
  constructor
  · rintro ⟨rc, hrc, hcond⟩
    rw [Bool.and_eq_true, beq_iff_eq] at hcond
    exact ⟨rc, hrc, cellWin_eq_some.2 ⟨hcond.1, hcond.1 ▸ hp, hcond.2⟩⟩
  · rintro ⟨rc, hrc, hwin⟩
    obtain ⟨hcell, -, hany⟩ := cellWin_eq_some.1 hwin
    exact ⟨rc, hrc, by rw [Bool.and_eq_true, beq_iff_eq]; exact ⟨hcell, hcell ▸ hany⟩⟩

/-- C7 (amended): on any well-formed grid, `GomokuGame.check_winner`
returns a winner `p ∈ {1,2}` only if some cell of color `p` begins a
forward run of at least five (the converse `iff` of the original claim
fails when both colors have runs: the row-major scan reports only the
first).  If either color has a run, some winner is returned; if neither
has a run the result is `0` when an empty cell remains and `3` (Draw,
never `0`/InProgress) when the board is full. -/
theorem C7_scan_winner (s : GameState) (hOK : cellsOK s.grid) :
    (∀ p : Int, gomoku_check_winner s = p → (p = 1 ∨ p = 2) →
        has_run s.grid s.size p = true) ∧
    ((has_run s.grid s.size 1 = true ∨ has_run s.grid s.size 2 = true) →
        gomoku_check_winner s = 1 ∨ gomoku_check_winner s = 2) ∧
    (has_run s.grid s.size 1 = false → has_run s.grid s.size 2 = false →
        gomoku_check_winner s =
          if s.grid.any (fun row => row.any (fun v => v == 0)) then 0 else 3) := by
  refine ⟨?_, ?_, ?_⟩
  · intro p hres hp
    cases hf : (cellsList s.size).findSome?
        (fun rc => cellWin s.grid s.size rc.1 rc.2) with
    | some q =>
      have hq : q = p := by
        unfold gomoku_check_winner at hres
        rw [hf] at hres
        exact hres
      subst hq
      obtain ⟨rc, hrc, hwin⟩ := List.exists_of_findSome?_eq_some hf
      have hp0 : q ≠ 0 := by omega
      exact (has_run_iff hp0).2 ⟨rc, hrc, hwin⟩
    | none =>
      unfold gomoku_check_winner at hres
      rw [hf] at hres
      have hres2 : (if s.grid.any (fun row => row.any (fun v => v == 0)) = true
          then (0 : Int) else 3) = p := hres
      by_cases hemp : s.grid.any (fun row => row.any (fun v => v == 0)) = true
      · rw [if_pos hemp] at hres2
        exfalso
        omega
      · rw [if_neg hemp] at hres2
        exfalso
        omega
  · intro hrun
    have hex : ∃ rc ∈ cellsList s.size,
        cellWin s.grid s.size rc.1 rc.2 ≠ none := by
      rcases hrun with h1 | h1
      · obtain ⟨rc, hrc, hwin⟩ := (has_run_iff (by omega : (1 : Int) ≠ 0)).1 h1
        exact ⟨rc, hrc, by rw [hwin]; exact Option.some_ne_none _⟩
      · obtain ⟨rc, hrc, hwin⟩ := (has_run_iff (by omega : (2 : Int) ≠ 0)).1 h1
        exact ⟨rc, hrc, by rw [hwin]; exact Option.some_ne_none _⟩
    cases hf : (cellsList s.size).findSome?
        (fun rc => cellWin s.grid s.size rc.1 rc.2) with
    | none =>
      obtain ⟨rc, hrc, hne⟩ := hex
      exact absurd (List.findSome?_eq_none_iff.1 hf rc hrc) hne
    | some q =>
      obtain ⟨rc, hrc, hwin⟩ := List.exists_of_findSome?_eq_some hf
      obtain ⟨hcell, hq0, -⟩ := cellWin_eq_some.1 hwin
      have hres : gomoku_check_winner s = q := by
        unfold gomoku_check_winner
        rw [hf]
      rcases cellsOK_cellAt s.grid hOK rc.1 rc.2 with h | h | h <;> rw [hcell] at h
      · exact absurd h hq0
      · exact Or.inl (hres.trans h)
      · exact Or.inr (hres.trans h)
  · intro h1 h2
    have hall : ∀ rc ∈ cellsList s.size,
        cellWin s.grid s.size rc.1 rc.2 = none := by
      intro rc hrc
      cases hwin : cellWin s.grid s.size rc.1 rc.2 with
      | none => rfl
      | some q =>
        obtain ⟨hcell, hq0, -⟩ := cellWin_eq_some.1 hwin
        rcases cellsOK_cellAt s.grid hOK rc.1 rc.2 with h | h | h <;>
          rw [hcell] at h
        · exact absurd h hq0
        · subst h
          rw [(has_run_iff (by omega : (1 : Int) ≠ 0)).2 ⟨rc, hrc, hwin⟩] at h1
          cases h1
        · subst h
          rw [(has_run_iff (by omega : (2 : Int) ≠ 0)).2 ⟨rc, hrc, hwin⟩] at h2
          cases h2
    unfold gomoku_check_winner
    rw [List.findSome?_eq_none_iff.2 hall]

/-- Witness for the amended C7: the fresh 8×8 board has no run for
either color, so the result is the no-winner branch (here `0`, since
empty cells remain). -/
theorem C7_witness :
    gomoku_check_winner (game_init 8) =
      if (game_init 8).grid.any (fun row => row.any (fun v => v == 0)) then 0 else 3 :=
  (C7_scan_winner (game_init 8) (by decide)).2.2 (by decide) (by decide)

/-- Counterexample to C7 as stated: in the reachable position `c7State`
a cell of color 2 begins a run of five, yet `check_winner` returns `1`
(the first run in row-major order), so "returns a win for color p iff
some cell of color p begins a run" fails at `p = 2`. -/
theorem C7_counterexample :
    (apply_moves Variant.gomoku (game_init 8) c7Moves).isSome = true ∧
    gomoku_check_winner c7State = 1 ∧
    has_run c7State.grid c7State.size 2 = true := by decide

/-! ## C8: characterization of the line-flip move -/

/-- Full characterization of `oth_scan`: it returns the cells
`start + i·d` for `i` below its length, all of which are valid opponent
cells, and stops at `start + length·d`. -/
theorem oth_scan_shape (g : Grid) (size : Nat) (opp dr dc : Int) (n : Nat) :
    ∀ r c : Int,
      (oth_scan g size opp dr dc r c n).1
        = (List.range (oth_scan g size opp dr dc r c n).1.length).map
            (fun (i : Nat) => (r + (i : Int) * dr, c + (i : Int) * dc)) ∧
      (∀ i : Nat, i < (oth_scan g size opp dr dc r c n).1.length →
        is_valid size (r + (i : Int) * dr) (c + (i : Int) * dc) = true ∧
        cellAt g (r + (i : Int) * dr) (c + (i : Int) * dc) = opp) ∧
      (oth_scan g size opp dr dc r c n).2.1
        = r + ((oth_scan g size opp dr dc r c n).1.length : Int) * dr ∧
      (oth_scan g size opp dr dc r c n).2.2
        = c + ((oth_scan g size opp dr dc r c n).1.length : Int) * dc := by
  induction n with
  | zero =>
    intro r c
    refine ⟨rfl, ?_, by simp [oth_scan], by simp [oth_scan]⟩
    intro i hi
    simp [oth_scan] at hi
  | succ n ih =>
    intro r c
    by_cases h : is_valid size r c = true ∧ cellAt g r c = opp
    · have hsc : oth_scan g size opp dr dc r c (n + 1) =
          ((r, c) :: (oth_scan g size opp dr dc (r + dr) (c + dc) n).1,
           (oth_scan g size opp dr dc (r + dr) (c + dc) n).2) := by
        simp [oth_scan, h]
      obtain ⟨ihmap, ihcells, ihe1, ihe2⟩ := ih (r + dr) (c + dc)
      rw [hsc]
      simp only [List.length_cons]
      refine ⟨?_, ?_, ?_, ?_⟩
      · rw [List.range_succ_eq_map, List.map_cons, List.map_map]
        congr 1
        · norm_num
        · conv_lhs => rw [ihmap]
          apply List.map_congr_left
          intro i hi
          simp only [Function.comp_apply, Prod.mk.injEq]
          constructor <;> push_cast [Nat.succ_eq_add_one] <;> ring
      · intro i hi
        cases i with
        | zero => simpa using h
        | succ i2 =>
          have hpos1 : r + ((i2 + 1 : Nat) : Int) * dr = (r + dr) + (i2 : Int) * dr := by
            push_cast
            ring
          have hpos2 : c + ((i2 + 1 : Nat) : Int) * dc = (c + dc) + (i2 : Int) * dc := by
            push_cast
            ring
          rw [hpos1, hpos2]
          exact ihcells i2 (by omega)
      · rw [ihe1]
        push_cast
        ring
      · rw [ihe2]
        push_cast
        ring
    · have hsc : oth_scan g size opp dr dc r c (n + 1) = ([], r, c) := by
        simp [oth_scan, h]
      rw [hsc]
      refine ⟨rfl, ?_, by simp, by simp⟩
      intro i hi
      simp at hi

/-- When the maximal opponent run from the start cell has length `k`
(cells `0..k-1` valid opponent, cell `k` not) and `k` fits in the fuel,
`oth_scan` collects exactly `k` cells. -/
theorem oth_scan_len (g : Grid) (size : Nat) (opp dr dc : Int) :
    ∀ (k n : Nat) (r c : Int), k < n →
      (∀ i : Nat, i < k →
        is_valid size (r + (i : Int) * dr) (c + (i : Int) * dc) = true ∧
        cellAt g (r + (i : Int) * dr) (c + (i : Int) * dc) = opp) →
      ¬ (is_valid size (r + (k : Int) * dr) (c + (k : Int) * dc) = true ∧
         cellAt g (r + (k : Int) * dr) (c + (k : Int) * dc) = opp) →
      (oth_scan g size opp dr dc r c n).1.length = k := by
  intro k
  induction k with
  | zero =>
    intro n r c hn hall hnot
    cases n with
    | zero => omega
    | succ n =>
      have hnot2 : ¬ (is_valid size r c = true ∧ cellAt g r c = opp) := by
        simpa using hnot
      simp [oth_scan, hnot2]
  | succ k ih =>
    intro n r c hn hall hnot
    cases n with
    | zero => omega
    | succ n =>
      have h0 : is_valid size r c = true ∧ cellAt g r c = opp := by
        simpa using hall 0 (by omega)
      have hsc : oth_scan g size opp dr dc r c (n + 1) =
          ((r, c) :: (oth_scan g size opp dr dc (r + dr) (c + dc) n).1,
           (oth_scan g size opp dr dc (r + dr) (c + dc) n).2) := by
        simp [oth_scan, h0]
      rw [hsc, List.length_cons]
      have hall2 : ∀ i : Nat, i < k →
          is_valid size ((r + dr) + (i : Int) * dr) ((c + dc) + (i : Int) * dc) = true ∧
          cellAt g ((r + dr) + (i : Int) * dr) ((c + dc) + (i : Int) * dc) = opp := by
        intro i hi
        have hpos1 : (r + dr) + (i : Int) * dr = r + ((i + 1 : Nat) : Int) * dr := by
          push_cast
          ring
        have hpos2 : (c + dc) + (i : Int) * dc = c + ((i + 1 : Nat) : Int) * dc := by
          push_cast
          ring
        rw [hpos1, hpos2]
        exact hall (i + 1) (by omega)
      have hnot2 : ¬ (is_valid size ((r + dr) + (k : Int) * dr)
            ((c + dc) + (k : Int) * dc) = true ∧
          cellAt g ((r + dr) + (k : Int) * dr) ((c + dc) + (k : Int) * dc) = opp) := by
        have hpos1 : (r + dr) + (k : Int) * dr = r + ((k + 1 : Nat) : Int) * dr := by
          push_cast
          ring
        have hpos2 : (c + dc) + (k : Int) * dc = c + ((k + 1 : Nat) : Int) * dc := by
          push_cast
          ring
        rw [hpos1, hpos2]
        exact hnot
      rw [ih n (r + dr) (c + dc) (by omega) hall2 hnot2]

theorem list_getD_set_eq {α : Type} (l : List α) (n : Nat) (a d : α)
    (h : n < l.length) : (l.set n a).getD n d = a := by
  simp [List.getD, List.getElem?_set_eq_of_lt a h]

theorem list_getD_set_ne {α : Type} (l : List α) (n m : Nat) (a d : α)
    (h : n ≠ m) : (l.set n a).getD m d = l.getD m d := by
  simp [List.getD, List.getElem?_set_ne h]

theorem dims_ok_set (size : Nat) (g : Grid) (x y v : Int)
    (h : dims_ok size g) : dims_ok size (setCell g x y v) := by
  obtain ⟨hl, hr⟩ := h
  unfold setCell
  by_cases hx : x.toNat < g.length
  · constructor
    · simp [hl]
    · intro row hrow
      rcases List.mem_or_eq_of_mem_set hrow with h2 | rfl
      · exact hr row h2
      · rw [List.length_set]
        have hgd : g.getD x.toNat [] = g[x.toNat] := by
          simp [List.getD, List.getElem?_eq_getElem hx]
        rw [hgd]
        exact hr _ (List.getElem_mem hx)
  · rw [List.set_eq_of_length_le (Nat.le_of_not_lt hx)]
    exact ⟨hl, hr⟩

theorem cellAt_setCell_self (size : Nat) (g : Grid) (x y v : Int)
    (hd : dims_ok size g) (hv : is_valid size x y = true) :
    cellAt (setCell g x y v) x y = v := by
  obtain ⟨hl, hr⟩ := hd
  simp only [is_valid, Bool.and_eq_true, decide_eq_true_eq] at hv
  have hx : x.toNat < g.length := by omega
  have hgd : g.getD x.toNat [] = g[x.toNat] := by
    simp [List.getD, List.getElem?_eq_getElem hx]
  have hy : y.toNat < (g.getD x.toNat []).length := by
    rw [hgd, hr _ (List.getElem_mem hx)]
    omega
  unfold cellAt setCell
  rw [list_getD_set_eq g x.toNat _ [] hx]
  rw [list_getD_set_eq _ y.toNat _ 0 hy]

theorem cellAt_setCell_preserve (g : Grid) (x y r c v : Int)
    (h : cellAt g r c = v) : cellAt (setCell g x y v) r c = v := by
  unfold cellAt at h
  unfold cellAt setCell
  by_cases hx : x.toNat = r.toNat
  · rw [← hx] at h ⊢
    by_cases hxl : x.toNat < g.length
    · rw [list_getD_set_eq g x.toNat _ [] hxl]
      by_cases hy : y.toNat = c.toNat
      · rw [← hy] at h ⊢
        by_cases hyl : y.toNat < (g.getD x.toNat []).length
        · rw [list_getD_set_eq _ y.toNat _ 0 hyl]
        · rw [List.set_eq_of_length_le (Nat.le_of_not_lt hyl)]
          exact h
      · rw [list_getD_set_ne _ y.toNat c.toNat _ 0 hy]
        exact h
    · rw [List.set_eq_of_length_le (Nat.le_of_not_lt hxl)]
      exact h
  · rw [list_getD_set_ne g x.toNat r.toNat _ [] hx]
    exact h

/-- Writing the value `p` over all cells of a list: any cell of the list
(ending up written) or any cell already holding `p` holds `p`
afterwards. -/
theorem cellAt_foldl_setp (size : Nat) (p : Int) :
    ∀ (l : List (Int × Int)) (g : Grid), dims_ok size g →
      (∀ rc ∈ l, is_valid size rc.1 rc.2 = true) →
      ∀ r c : Int, ((r, c) ∈ l ∨ cellAt g r c = p) →
        cellAt (l.foldl (fun g rc => setCell g rc.1 rc.2 p) g) r c = p := by
  intro l
  induction l with
  | nil =>
    intro g hd hall r c hdisj
    rcases hdisj with hmem | hcell
    · cases hmem
    · exact hcell
  | cons a l ih =>
    intro g hd hall r c hdisj
    rw [List.foldl_cons]
    have hd2 : dims_ok size (setCell g a.1 a.2 p) := dims_ok_set size g a.1 a.2 p hd
    have hall2 : ∀ rc ∈ l, is_valid size rc.1 rc.2 = true :=
      fun rc hrc => hall rc (List.mem_cons_of_mem a hrc)
    rcases hdisj with hmem | hcell
    · rcases List.mem_cons.1 hmem with heq | hmem2
      · have hva : is_valid size a.1 a.2 = true := hall a (List.mem_cons_self a l)
        have h1 : r = a.1 := congrArg Prod.fst heq
        have h2 : c = a.2 := congrArg Prod.snd heq
        have : cellAt (setCell g a.1 a.2 p) r c = p := by
          rw [h1, h2]
          exact cellAt_setCell_self size g a.1 a.2 p hd hva
        exact ih _ hd2 hall2 r c (Or.inr this)
      · exact ih _ hd2 hall2 r c (Or.inl hmem2)
    · exact ih _ hd2 hall2 r c
        (Or.inr (cellAt_setCell_preserve g a.1 a.2 r c p hcell))

theorem gfs_eq_flatMap (g : Grid) (size : Nat) (x y p : Int) :
    get_flipped_stones g size x y p = oth_dirs.flatMap (dir_flips g size x y p) := by
  have haux : ∀ (l : List (Int × Int)) (a : List (Int × Int)),
      l.foldl (fun acc d => acc ++ dir_flips g size x y p d) a
        = a ++ l.flatMap (dir_flips g size x y p) := by
    intro l
    induction l with
    | nil => intro a; simp
    | cons d l ih =>
      intro a
      rw [List.foldl_cons, ih]
      simp
  simpa [get_flipped_stones] using haux oth_dirs []

/-- Along any of the eight directions a bracketed run starting at a
valid square stays strictly shorter than the board side. -/
theorem run_k_lt_size (g : Grid) (size : Nat) (x y p : Int) (d : Int × Int)
    (k : Nat) (hd : d ∈ oth_dirs) (hv : is_valid size x y = true)
    (hs : run_spec g size x y p d k) : k < size := by
  obtain ⟨hk1, hcells, -⟩ := hs
  have hkv := (hcells k hk1 le_rfl).1
  simp only [oth_dirs, List.mem_cons, List.mem_singleton, List.not_mem_nil, or_false] at hd
  simp only [is_valid, Bool.and_eq_true, decide_eq_true_eq] at hv
  rcases hd with rfl | rfl | rfl | rfl | rfl | rfl | rfl | rfl <;>
    simp only [is_valid, Bool.and_eq_true, decide_eq_true_eq] at hkv <;>
    omega

theorem dir_flips_to_run (g : Grid) (size : Nat) (x y p : Int) (d : Int × Int)
    (h : dir_flips g size x y p d ≠ []) :
    ∃ k : Nat, run_spec g size x y p d k := by
  simp only [dir_flips] at h
  obtain ⟨hmap, hcells, he1, he2⟩ :=
    oth_scan_shape g size (3 - p) d.1 d.2 size (x + d.1) (y + d.2)
  by_cases hcond :
      is_valid size (oth_scan g size (3 - p) d.1 d.2 (x + d.1) (y + d.2) size).2.1
        (oth_scan g size (3 - p) d.1 d.2 (x + d.1) (y + d.2) size).2.2 = true ∧
      cellAt g (oth_scan g size (3 - p) d.1 d.2 (x + d.1) (y + d.2) size).2.1
        (oth_scan g size (3 - p) d.1 d.2 (x + d.1) (y + d.2) size).2.2 = p
  · rw [if_pos hcond] at h
    refine ⟨(oth_scan g size (3 - p) d.1 d.2 (x + d.1) (y + d.2) size).1.length,
      List.length_pos.2 h, ?_, ?_, ?_⟩
    · intro j h1 h2
      obtain ⟨i, rfl⟩ : ∃ i, j = i + 1 := ⟨j - 1, by omega⟩
      have hp1 : x + ((i + 1 : Nat) : Int) * d.1 = (x + d.1) + (i : Int) * d.1 := by
        push_cast
        ring
      have hp2 : y + ((i + 1 : Nat) : Int) * d.2 = (y + d.2) + (i : Int) * d.2 := by
        push_cast
        ring
      rw [hp1, hp2]
      exact hcells i (by omega)
    · have hp1 : x + (((oth_scan g size (3 - p) d.1 d.2 (x + d.1) (y + d.2) size).1.length
            + 1 : Nat) : Int) * d.1
          = (x + d.1) +
            ((oth_scan g size (3 - p) d.1 d.2 (x + d.1) (y + d.2) size).1.length : Int) * d.1 := by
        push_cast
        ring
      rw [hp1, ← he1]
      have hp2 : y + (((oth_scan g size (3 - p) d.1 d.2 (x + d.1) (y + d.2) size).1.length
            + 1 : Nat) : Int) * d.2
          = (y + d.2) +
            ((oth_scan g size (3 - p) d.1 d.2 (x + d.1) (y + d.2) size).1.length : Int) * d.2 := by
        push_cast
        ring
      rw [hp2, ← he2]
      exact hcond.1
    · have hp1 : x + (((oth_scan g size (3 - p) d.1 d.2 (x + d.1) (y + d.2) size).1.length
            + 1 : Nat) : Int) * d.1
          = (x + d.1) +
            ((oth_scan g size (3 - p) d.1 d.2 (x + d.1) (y + d.2) size).1.length : Int) * d.1 := by
        push_cast
        ring
      rw [hp1, ← he1]
      have hp2 : y + (((oth_scan g size (3 - p) d.1 d.2 (x + d.1) (y + d.2) size).1.length
            + 1 : Nat) : Int) * d.2
          = (y + d.2) +
            ((oth_scan g size (3 - p) d.1 d.2 (x + d.1) (y + d.2) size).1.length : Int) * d.2 := by
        push_cast
        ring
      rw [hp2, ← he2]
      exact hcond.2
  · rw [if_neg hcond] at h
    exact absurd rfl h

theorem dir_flips_of_run (g : Grid) (size : Nat) (x y p : Int) (d : Int × Int)
    (k : Nat) (hd : d ∈ oth_dirs) (hv : is_valid size x y = true)
    (hs : run_spec g size x y p d k) :
    dir_flips g size x y p d
      = (List.range k).map
          (fun (i : Nat) => ((x + d.1) + (i : Int) * d.1, (y + d.2) + (i : Int) * d.2)) ∧
    dir_flips g size x y p d ≠ [] := by
  obtain ⟨hk1, hcells, hev, hec⟩ := hs
  have hklt := run_k_lt_size g size x y p d k hd hv ⟨hk1, hcells, hev, hec⟩
  have hall : ∀ i : Nat, i < k →
      is_valid size ((x + d.1) + (i : Int) * d.1) ((y + d.2) + (i : Int) * d.2) = true ∧
      cellAt g ((x + d.1) + (i : Int) * d.1) ((y + d.2) + (i : Int) * d.2) = 3 - p := by
    intro i hi
    have hp1 : (x + d.1) + (i : Int) * d.1 = x + ((i + 1 : Nat) : Int) * d.1 := by
      push_cast
      ring
    have hp2 : (y + d.2) + (i : Int) * d.2 = y + ((i + 1 : Nat) : Int) * d.2 := by
      push_cast
      ring
    rw [hp1, hp2]
    exact hcells (i + 1) (by omega) (by omega)
  have hnot : ¬ (is_valid size ((x + d.1) + (k : Int) * d.1)
        ((y + d.2) + (k : Int) * d.2) = true ∧
      cellAt g ((x + d.1) + (k : Int) * d.1) ((y + d.2) + (k : Int) * d.2) = 3 - p) := by
    have hp1 : (x + d.1) + (k : Int) * d.1 = x + ((k + 1 : Nat) : Int) * d.1 := by
      push_cast
      ring
    have hp2 : (y + d.2) + (k : Int) * d.2 = y + ((k + 1 : Nat) : Int) * d.2 := by
      push_cast
      ring
    rw [hp1, hp2]
    rintro ⟨-, hcc⟩
    rw [hec] at hcc
    omega
  have hlen := oth_scan_len g size (3 - p) d.1 d.2 k size (x + d.1) (y + d.2)
    hklt hall hnot
  obtain ⟨hmap, hcells2, he1, he2⟩ :=
    oth_scan_shape g size (3 - p) d.1 d.2 size (x + d.1) (y + d.2)
  have hcond :
      is_valid size (oth_scan g size (3 - p) d.1 d.2 (x + d.1) (y + d.2) size).2.1
        (oth_scan g size (3 - p) d.1 d.2 (x + d.1) (y + d.2) size).2.2 = true ∧
      cellAt g (oth_scan g size (3 - p) d.1 d.2 (x + d.1) (y + d.2) size).2.1
        (oth_scan g size (3 - p) d.1 d.2 (x + d.1) (y + d.2) size).2.2 = p := by
    rw [he1, he2, hlen]
    have hp1 : (x + d.1) + (k : Int) * d.1 = x + ((k + 1 : Nat) : Int) * d.1 := by
      push_cast
      ring
    have hp2 : (y + d.2) + (k : Int) * d.2 = y + ((k + 1 : Nat) : Int) * d.2 := by
      push_cast
      ring
    rw [hp1, hp2]
    exact ⟨hev, hec⟩
  have hflips : dir_flips g size x y p d
      = (oth_scan g size (3 - p) d.1 d.2 (x + d.1) (y + d.2) size).1 := by
    simp only [dir_flips]
    rw [if_pos hcond]
  constructor
  · rw [hflips, hmap, hlen]
  · rw [hflips]
    intro hnil
    rw [hnil] at hlen
    simp at hlen
    omega

theorem oth_mm_error_iff (s : GameState) (x y : Int) :
    (oth_make_move s x y).error = none ↔
      (is_valid s.size x y = true ∧ cellAt s.grid x y = 0 ∧
        get_flipped_stones s.grid s.size x y s.current_player ≠ []) := by
  obtain ⟨sz, g, p, hist⟩ := s
  cases h1 : is_valid sz x y
  · simp [oth_make_move, h1]
  · by_cases h2 : cellAt g x y = 0
    · by_cases h3 : get_flipped_stones g sz x y p = []
      · simp [oth_make_move, h1, h2, h3]
      · simp [oth_make_move, h1, h2, h3]
    · simp [oth_make_move, h1, h2]

theorem flipped_ne_nil_iff (g : Grid) (size : Nat) (x y p : Int)
    (hv : is_valid size x y = true) :
    get_flipped_stones g size x y p ≠ [] ↔ bracket_spec g size x y p := by
  rw [gfs_eq_flatMap]
  constructor
  · intro h
    have hne : ¬ ∀ d ∈ oth_dirs, dir_flips g size x y p d = [] := by
      intro hall
      exact h (List.flatMap_eq_nil_iff.2 hall)
    push_neg at hne
    obtain ⟨d, hd, hdne⟩ := hne
    obtain ⟨k, hk⟩ := dir_flips_to_run g size x y p d hdne
    exact ⟨d, hd, k, hk⟩
  · rintro ⟨d, hd, k, hk⟩
    obtain ⟨-, hne⟩ := dir_flips_of_run g size x y p d k hd hv hk
    intro hnil
    exact hne (List.flatMap_eq_nil_iff.1 hnil d hd)

theorem flipped_valid (g : Grid) (size : Nat) (x y p : Int) (rc : Int × Int)
    (h : rc ∈ get_flipped_stones g size x y p) :
    is_valid size rc.1 rc.2 = true := by
  rw [gfs_eq_flatMap] at h
  obtain ⟨d, hd, hmem⟩ := List.mem_flatMap.1 h
  simp only [dir_flips] at hmem
  obtain ⟨hmap, hcells, -, -⟩ :=
    oth_scan_shape g size (3 - p) d.1 d.2 size (x + d.1) (y + d.2)
  by_cases hcond :
      is_valid size (oth_scan g size (3 - p) d.1 d.2 (x + d.1) (y + d.2) size).2.1
        (oth_scan g size (3 - p) d.1 d.2 (x + d.1) (y + d.2) size).2.2 = true ∧
      cellAt g (oth_scan g size (3 - p) d.1 d.2 (x + d.1) (y + d.2) size).2.1
        (oth_scan g size (3 - p) d.1 d.2 (x + d.1) (y + d.2) size).2.2 = p
  · rw [if_pos hcond] at hmem
    rw [hmap] at hmem
    obtain ⟨i, hi, heq⟩ := List.mem_map.1 hmem
    rw [List.mem_range] at hi
    rw [← heq]
    exact (hcells i hi).1
  · rw [if_neg hcond] at hmem
    cases hmem

theorem run_cell_mem_flipped (g : Grid) (size : Nat) (x y p : Int)
    (d : Int × Int) (k j : Nat) (hd : d ∈ oth_dirs)
    (hv : is_valid size x y = true) (hs : run_spec g size x y p d k)
    (h1 : 1 ≤ j) (h2 : j ≤ k) :
    (x + (j : Int) * d.1, y + (j : Int) * d.2) ∈ get_flipped_stones g size x y p := by
  rw [gfs_eq_flatMap]
  apply List.mem_flatMap.2
  refine ⟨d, hd, ?_⟩
  obtain ⟨hmap, -⟩ := dir_flips_of_run g size x y p d k hd hv hs
  rw [hmap]
  apply List.mem_map.2
  obtain ⟨i, rfl⟩ : ∃ i, j = i + 1 := ⟨j - 1, by omega⟩
  refine ⟨i, List.mem_range.2 (by omega), ?_⟩
  rw [Prod.mk.injEq]
  constructor <;> push_cast <;> ring

theorem dims_ok_empty (n : Nat) : dims_ok n (empty_grid n) := by
  constructor
  · simp [empty_grid]
  · intro row hrow
    rw [List.eq_of_mem_replicate hrow]
    simp

theorem dims_ok_foldl_set (size : Nat) (val : Int) (l : List (Int × Int)) :
    ∀ g : Grid, dims_ok size g →
      dims_ok size (l.foldl (fun g rc => setCell g rc.1 rc.2 val) g) := by
  induction l with
  | nil => intro g hg; exact hg
  | cons rc l ih => intro g hg; exact ih _ (dims_ok_set size g rc.1 rc.2 val hg)

theorem dims_ok_cap_step (size : Nat) (x y opp : Int) (gb : Grid × Bool)
    (d : Int × Int) (hg : dims_ok size gb.1) :
    dims_ok size (go_cap_step size x y opp gb d).1 := by
  unfold go_cap_step
  by_cases h1 : is_valid size (x + d.1) (y + d.2) = true ∧
      cellAt gb.1 (x + d.1) (y + d.2) = opp
  · by_cases h2 : has_liberty gb.1 size (x + d.1) (y + d.2) = true
    · simpa [h1, h2] using hg
    · simpa [h1, h2, capture_group] using
        dims_ok_foldl_set size 0 _ _ hg
  · simpa [h1] using hg

theorem dims_ok_captures (size : Nat) (x y opp : Int) (ds : List (Int × Int)) :
    ∀ gb : Grid × Bool, dims_ok size gb.1 →
      dims_ok size ((ds.foldl (go_cap_step size x y opp) gb).1) := by
  induction ds with
  | nil => intro gb hg; exact hg
  | cons d ds ih => intro gb hg; exact ih _ (dims_ok_cap_step size x y opp gb d hg)

/-- Every engine call preserves the dimensional invariant. -/
theorem gridOK_step (v : Variant) (s : GameState) (a : Act)
    (h : gridOK s) : gridOK (step v s a).state := by
  obtain ⟨hg, hh⟩ := h
  have hcons : ∀ g ∈ s.grid :: s.history, dims_ok s.size g := by
    intro g2 hg2
    rcases List.mem_cons.1 hg2 with rfl | hg3
    · exact hg
    · exact hh g2 hg3
  cases a with
  | move x y =>
    cases he : (step v s (Act.move x y)).error with
    | some e =>
      rw [step_fail v s (Act.move x y) (by simp [he])]
      exact ⟨hg, hh⟩
    | none =>
      cases v with
      | gomoku =>
        have hs := gomoku_mm_succ s x y he
        show gridOK (gomoku_make_move s x y).state
        rw [hs]
        exact ⟨dims_ok_set _ _ _ _ _ hg, hcons⟩
      | go =>
        have hs := go_mm_succ s x y he
        show gridOK (go_make_move s x y).state
        rw [hs]
        exact ⟨dims_ok_captures s.size x y (3 - s.current_player) go_dirs
          (setCell s.grid x y s.current_player, false)
          (dims_ok_set _ _ _ _ _ hg), hcons⟩
      | othello =>
        have hs := oth_mm_succ s x y he
        show gridOK (oth_make_move s x y).state
        rw [hs]
        exact ⟨dims_ok_foldl_set s.size s.current_player _ _
          (dims_ok_set _ _ _ _ _ hg), hcons⟩
  | pass =>
    cases v with
    | gomoku => exact ⟨hg, hh⟩
    | go => exact ⟨hg, hcons⟩
    | othello => exact ⟨hg, hcons⟩
  | undoAct =>
    cases hhist : s.history with
    | nil =>
      have hs : (step v s Act.undoAct).state = s := by simp [step, undo, hhist]
      rw [hs]
      exact ⟨hg, hh⟩
    | cons g2 rest =>
      have hs : (step v s Act.undoAct).state =
          { s with grid := g2, history := rest,
                   current_player := 3 - s.current_player } := by
        simp [step, undo, hhist]
      rw [hs]
      refine ⟨hh g2 (hhist ▸ List.mem_cons_self _ _), ?_⟩
      intro g3 hg3
      exact hh g3 (hhist ▸ List.mem_cons_of_mem _ hg3)

theorem gridOK_run (v : Variant) (acts : List Act) :
    ∀ s : GameState, gridOK s → gridOK (run v s acts) := by
  induction acts with
  | nil => intro s h; exact h
  | cons a rest ih => intro s h; exact ih _ (gridOK_step v s a h)

theorem gridOK_init (v : Variant) (size : Nat) : gridOK (init v size) := by
  cases v with
  | gomoku => exact ⟨dims_ok_empty size, by intro g hg; cases hg⟩
  | go => exact ⟨dims_ok_empty size, by intro g hg; cases hg⟩
  | othello =>
    refine ⟨?_, by intro g hg; cases hg⟩
    apply dims_ok_set
    apply dims_ok_set
    apply dims_ok_set
    apply dims_ok_set
    exact dims_ok_empty size

/-- Every reachable state satisfies the `dims_ok` hypothesis of the C8
theorem: the engine always keeps the grid a `size × size` matrix. -/
theorem dims_ok_reachable (v : Variant) (s : GameState) (h : Reachable v s) :
    dims_ok s.size s.grid := by
  obtain ⟨size, acts, -, -, rfl⟩ := h
  exact (gridOK_run v acts (init v size) (gridOK_init v size)).1

/-- C8: a line-flip move succeeds iff the square is in bounds, empty,
and some of the 8 directions brackets a nonempty run of opponent stones
between the new stone and an own stone; on success the stone is placed,
every stone of every bracketed run now holds the mover's color, and the
player toggles.  (`dims_ok` states that the grid is the `size × size`
matrix the engine always maintains.) -/
theorem C8_flip_move (s : GameState) (x y : Int)
    (hdims : dims_ok s.size s.grid) :
    ((oth_make_move s x y).error = none ↔
      (is_valid s.size x y = true ∧ cellAt s.grid x y = 0 ∧
        bracket_spec s.grid s.size x y s.current_player)) ∧
    ((oth_make_move s x y).error = none →
      (oth_make_move s x y).state.current_player = 3 - s.current_player ∧
      cellAt (oth_make_move s x y).state.grid x y = s.current_player ∧
      ∀ d ∈ oth_dirs, ∀ k : Nat,
        run_spec s.grid s.size x y s.current_player d k →
        ∀ j : Nat, 1 ≤ j → j ≤ k →
          cellAt (oth_make_move s x y).state.grid
            (x + (j : Int) * d.1) (y + (j : Int) * d.2) = s.current_player) := by
  constructor
  · rw [oth_mm_error_iff]
    constructor
    · rintro ⟨hv, he, hne⟩
      exact ⟨hv, he, (flipped_ne_nil_iff s.grid s.size x y s.current_player hv).1 hne⟩
    · rintro ⟨hv, he, hb⟩
      exact ⟨hv, he, (flipped_ne_nil_iff s.grid s.size x y s.current_player hv).2 hb⟩
  · intro hsucc
    obtain ⟨hv, he, hne⟩ := (oth_mm_error_iff s x y).1 hsucc
    have hshape := oth_mm_succ s x y hsucc
    rw [hshape]
    refine ⟨rfl, ?_, ?_⟩
    · apply cellAt_foldl_setp s.size s.current_player _ _
        (dims_ok_set s.size s.grid x y s.current_player hdims)
        (fun rc hrc => flipped_valid s.grid s.size x y s.current_player rc hrc)
      exact Or.inr (cellAt_setCell_self s.size s.grid x y s.current_player hdims hv)
    · intro d hd k hs j h1 h2
      apply cellAt_foldl_setp s.size s.current_player _ _
        (dims_ok_set s.size s.grid x y s.current_player hdims)
        (fun rc hrc => flipped_valid s.grid s.size x y s.current_player rc hrc)
      exact Or.inl (run_cell_mem_flipped s.grid s.size x y s.current_player d k j
        hd hv hs h1 h2)

/-- Witness for C8: the classical opening move (2,3) on the fresh 8×8
line-flip board succeeds, places a black stone at (2,3), and toggles
the player to white. -/
theorem C8_witness :
    (oth_make_move (oth_init 8) 2 3).state.current_player = 3 - 1 ∧
    cellAt (oth_make_move (oth_init 8) 2 3).state.grid 2 3 = 1 :=
  ⟨((C8_flip_move (oth_init 8) 2 3 (by decide)).2 (by decide)).1,
   ((C8_flip_move (oth_init 8) 2 3 (by decide)).2 (by decide)).2.1⟩

end Chess
